import Mathlib

/-
  Verification of the content-resolution pipeline of this repository
  (an RSS aggregator that resolves article bodies through an archival
  mirror).  The embedding below translates the two Python drafts
  (lau.py and combine_rss.py) into Lean: pure helper functions become
  Lean functions over `List Char`; the rendered DOM that BeautifulSoup
  produces is modelled as a tree of element/text nodes; browser and
  network effects are modelled as explicit behaviour records so that a
  resolution run is a pure function of the injected behaviour; Python
  exceptions are modelled with `Except`.
-/

/-- Python strings are modelled as lists of characters. -/
abbrev Str := List Char

/-- Shorthand turning a Lean string literal into the `Str` model. -/
def str (s : String) : Str := s.data

/-- Python `str.lower` on one character, restricted to ASCII:
characters A-Z (codepoints 65-90) map 32 codepoints up; everything
else is unchanged. -/
def pyLowerChar (c : Char) : Char :=
  if 65 ≤ c.toNat ∧ c.toNat ≤ 90 then Char.ofNat (c.toNat + 32) else c

/-- Python `str.lower` (ASCII fragment). -/
def pyLower (s : Str) : Str := s.map pyLowerChar

/-- The character class of Python's regex `\s` (ASCII fragment):
space, tab, newline, carriage return, vertical tab, form feed. -/
def isPySpace (c : Char) : Bool :=
  c = ' ' || c = '\t' || c = '\n' || c = '\r' || c = '\x0b' || c = '\x0c'

/-- Python `str.strip()`: drop whitespace from both ends. -/
def pyStrip (s : Str) : Str :=
  ((s.dropWhile isPySpace).reverse.dropWhile isPySpace).reverse

/-- Python `a.isPrefixOf`-style check used to build substring search:
is `n` a prefix of `h`? -/
def prefixB : Str → Str → Bool
  | [], _ => true
  | _ :: _, [] => false
  | a :: as, b :: bs => decide (a = b) && prefixB as bs

/-- Python's substring test `n in h` (contiguous substring; the empty
string is a substring of everything). -/
def infixB (n : Str) : Str → Bool
  | [] => prefixB n []
  | c :: t => prefixB n (c :: t) || infixB n t

/-- lau.py `normalize_style`: lowercase the style string and remove all
whitespace (`re.sub(r'\s+', '', style_str.lower())`). -/
def normalize_style (s : Str) : Str :=
  (pyLower s).filter (fun c => !(isPySpace c))

/-
  The DOM model.  BeautifulSoup's parse tree is modelled as a mutual
  inductive of nodes (text or element) and node lists; only the tag
  name, the inline `style` attribute and the children are relevant to
  the extractor.
-/

mutual
inductive Node : Type where
  | text : Str → Node
  | elem : Str → Str → NodeList → Node
inductive NodeList : Type where
  | nil : NodeList
  | cons : Node → NodeList → NodeList
end

/-- Build a `NodeList` from a Lean list of nodes. -/
def nlist : List Node → NodeList
  | [] => NodeList.nil
  | n :: ns => NodeList.cons n (nlist ns)

/-- Tag of an element node (text nodes have no tag). -/
def tagOf : Node → Str
  | Node.text _ => []
  | Node.elem t _ _ => t

/-- Inline `style` attribute of an element (`div.get("style", "")`,
the empty string when absent). -/
def styleOf : Node → Str
  | Node.text _ => []
  | Node.elem _ s _ => s

/-- Direct children of a node, as a Lean list. -/
def childrenOf : Node → List Node
  | Node.text _ => []
  | Node.elem _ _ cs => childrenList cs
where childrenList : NodeList → List Node
  | NodeList.nil => []
  | NodeList.cons n ns => n :: childrenList ns

mutual
/-- All element nodes of a subtree including its root (document
pre-order), as produced by BeautifulSoup tag iteration. -/
def elemsOf : Node → List Node
  | Node.text _ => []
  | Node.elem t s cs => Node.elem t s cs :: elemsOfL cs
/-- All element nodes below a list of siblings, in document order. -/
def elemsOfL : NodeList → List Node
  | NodeList.nil => []
  | NodeList.cons n ns => elemsOf n ++ elemsOfL ns
end

/-- Element descendants of a node, excluding the node itself
(what `tag.find_all(..., recursive=True)` searches). -/
def strictDescendants : Node → List Node
  | Node.text _ => []
  | Node.elem _ _ cs => elemsOfL cs

mutual
/-- All descendant text-node strings of a subtree, in document order
(BeautifulSoup's `NavigableString` stream). -/
def nodeStrings : Node → List Str
  | Node.text s => [s]
  | Node.elem _ _ cs => nodeStringsL cs
def nodeStringsL : NodeList → List Str
  | NodeList.nil => []
  | NodeList.cons n ns => nodeStrings n ++ nodeStringsL ns
end

/-- Does this node have the given tag? -/
def isTag (n : Node) (t : Str) : Bool :=
  decide (tagOf n = t) && decide (¬ n matches Node.text _)

/-- BeautifulSoup `get_text(separator=" ", strip=True)`: each
descendant string is stripped, empty results are skipped, and the
remainder is joined with a single space. -/
def getText (n : Node) : Str :=
  List.intercalate (str " ") (((nodeStrings n).map pyStrip).filter (fun s => !s.isEmpty))

/-- lau.py: `div.find('figcaption')` truthiness — does the element
have a `figcaption` descendant? -/
def hasFigcaption (d : Node) : Bool :=
  (strictDescendants d).any (fun n => isTag n (str "figcaption"))

/-- lau.py `is_content_div`: decide from the normalized inline style
(and the figcaption test) whether a div holds article body text.  Only
the div's own style string is consulted. -/
def is_content_div (d : Node) (sn : Str) : Bool :=
  if infixB (str "display:none") sn then false
  else if hasFigcaption d then false
  else if infixB (str "line-height:28px") sn || infixB (str "line-height:24px") sn then true
  else if (infixB (str "font-size:20px") sn || infixB (str "font-size:17px") sn)
          && infixB (str "line-height") sn then true
  else false

/-- The inline tags whose text is folded into a content div's own text
(`['span', 'small', 'strong', 'em', 'a']`). -/
def inlineTags : List Str :=
  [str "span", str "small", str "strong", str "em", str "a"]

/-- lau.py, fragment assembly: direct string children are stripped and
kept (even when empty); children that are inline-emphasis tags
contribute their stripped full text when non-empty; other children are
skipped. -/
def collectParts : List Node → List Str
  | [] => []
  | Node.text s :: rest => pyStrip s :: collectParts rest
  | Node.elem t s cs :: rest =>
    if t ∈ inlineTags then
      let txt := getText (Node.elem t s cs)
      if txt ≠ [] then txt :: collectParts rest else collectParts rest
    else collectParts rest

/-- lau.py: `" ".join(text_parts).strip()` over a div's direct parts. -/
def divDirectText (d : Node) : Str :=
  pyStrip (List.intercalate (str " ") (collectParts (childrenOf d)))

/-- State of the extractor's dedup loop: the accepted fragments in
output order, and the membership set `seen_texts` (modelled as a list,
insertion-ordered). -/
structure DState where
  paragraphs : List Str
  seen : List Str

/-- The scan over `seen_texts` for a candidate `text`: the first
accepted fragment related to `text` by substring decides the outcome.
`some true` means the strict-superset branch ran: the code discards
from the set being iterated, so CPython's set iterator raises
RuntimeError on the next step.  `some false` means the candidate is a
substring (or equal up to the earlier membership test) of an accepted
fragment and is rejected with `break`.  `none` means no related
fragment exists. -/
def scanSeen (text : Str) : List Str → Option Bool
  | [] => none
  | e :: es =>
    if infixB text e || infixB e text then some (decide (e.length < text.length))
    else scanSeen text es

/-- One candidate of the style-signalled pass (lau.py lines 210-224):
length filter, exact-duplicate filter, then the substring scan.  The
strict-superset branch mutates `seen_texts` during iteration, which
raises RuntimeError — modelled as `Except.error`. -/
def styleStep (st : DState) (text : Str) : Except Unit DState :=
  if 20 < text.length ∧ text ∉ st.seen then
    match scanSeen text st.seen with
    | some true => Except.error ()
    | some false => Except.ok st
    | none => Except.ok ⟨st.paragraphs ++ [text], st.seen ++ [text]⟩
  else Except.ok st

/-- The style-signalled pass over all candidate divs. -/
def styleFold : List Node → DState → Except Unit DState
  | [], st => Except.ok st
  | d :: ds, st =>
    if is_content_div d (normalize_style (styleOf d)) then
      match styleStep st (divDirectText d) with
      | Except.error e => Except.error e
      | Except.ok st2 => styleFold ds st2
    else styleFold ds st

/-- The navigation/UI denylist of the permissive fallback pass. -/
def denylist : List Str :=
  [str "subscribe", str "sign in", str "menu", str "share this"]

/-- One div of the permissive fallback pass (lau.py lines 231-245):
skip hidden divs and figcaption holders, take the div's full text,
keep it when longer than 50 characters, not an exact duplicate, and
free of denylist phrases. -/
def permStep (st : DState) (d : Node) : DState :=
  if infixB (str "display:none") (normalize_style (styleOf d)) then st
  else if hasFigcaption d then st
  else if 50 < (getText d).length ∧ getText d ∉ st.seen then
    if denylist.any (fun k => infixB k (pyLower (getText d))) then st
    else ⟨st.paragraphs ++ [getText d], st.seen ++ [getText d]⟩
  else st

/-- The content search scope: all divs below the first `section`
element when one exists, else all divs of the document. -/
def allDivsOf (doc : NodeList) : List Node :=
  let pool := match (elemsOfL doc).find? (fun n => isTag n (str "section")) with
    | some (Node.elem _ _ cs) => elemsOfL cs
    | some (Node.text _) => []
    | none => elemsOfL doc
  pool.filter (fun n => isTag n (str "div"))

/-- lau.py `extract_article_text_from_html`, down to the fragment
list: the style-signalled pass (which can raise, see `styleStep`),
falling back to the permissive pass when it yields fewer than 3
fragments. -/
def extractParagraphs (doc : NodeList) : Except Unit (List Str) :=
  match styleFold (allDivsOf doc) ⟨[], []⟩ with
  | Except.error e => Except.error e
  | Except.ok st =>
    if st.paragraphs.length < 3 then
      Except.ok (List.foldl permStep ⟨[], []⟩ (allDivsOf doc)).paragraphs
    else Except.ok st.paragraphs

/-- lau.py `extract_article_text_from_html`: the fragments joined by a
blank line and stripped. -/
def extract_article_text_from_html (doc : NodeList) : Except Unit Str :=
  match extractParagraphs doc with
  | Except.error e => Except.error e
  | Except.ok ps => Except.ok (pyStrip (List.intercalate (str "\n\n") ps))

/-
  Challenge detector (lau.py `check_for_captcha`).
-/

/-- The indicator strings of lau.py `check_for_captcha`, in source
order.  Note the last one carries an uppercase letter. -/
def captcha_indicators : List Str :=
  [ str "recaptcha", str "captcha", str "verify you are human"
  , str "automated queries", str "Try again later" ]

/-- lau.py `check_for_captcha`: lowercase the page source and return
true as soon as one indicator occurs in it as a substring. -/
def check_for_captcha (page : Str) : Bool :=
  captcha_indicators.any (fun i => infixB i (pyLower page))

/-- Modelled from the spec: the ChallengeDetector boundary as the spec
words it — the detector reports true exactly when the page's HTML text
contains a challenge-provider pattern or one of the human-verification
phrases (the indicator list above).  Compared against
`check_for_captcha` for the refinement claim. -/
def detect_spec (page : Str) : Bool :=
  captcha_indicators.any (fun i => infixB i page)

/-
  Publication-date parsing (lau.py `parse_pubdate`).
-/

/-- A Python `datetime`: a naive clock value and an optional timezone
offset (minutes east of UTC); `tz = none` is a naive datetime, and
`tz = some 0` is an aware UTC datetime. -/
structure PyDateTime where
  t : Int
  tz : Option Int
deriving DecidableEq

/-- Python's `a or b` over an optional string and a string: `a` when
present and non-empty, else `b`. -/
def orStr (a : Option Str) (b : Str) : Str :=
  match a with
  | some s => if s = [] then b else s
  | none => b

/-- lau.py: `entry.get("published") or entry.get("updated") or ""`. -/
def pubString (published updated : Option Str) : Str :=
  orStr published (orStr updated [])

/-- lau.py `parse_pubdate`.  The stdlib RFC-2822 parser
`parsedate_to_datetime` is abstracted as the oracle `parse` (`none`
models both an unparsable string and a raised exception); `now` is the
ingestion instant, returned as an aware UTC datetime
(`datetime.now(timezone.utc)`).  A parsed naive datetime gets
`tzinfo=timezone.utc` attached; a parsed aware datetime keeps its
offset unchanged. -/
def parse_pubdate (parse : Str → Option PyDateTime) (now : Int)
    (published updated : Option Str) : PyDateTime :=
  if pubString published updated = [] then ⟨now, some 0⟩
  else match parse (pubString published updated) with
    | some dt => ⟨dt.t, some (dt.tz.getD 0)⟩
    | none => ⟨now, some 0⟩

/-
  combine_rss.py: `fetch_article_content` and the per-entry body
  fallback.  The browser session is abstracted as a behaviour record;
  every exception raised inside the function is caught by its own
  handlers and turns into `none`.
-/

/-- Behaviour of the rendered page as seen by
combine_rss.py `fetch_article_content`: whether navigation raises,
whether the wait for `body` succeeds, the text of the first found
element for each CSS selector tried (`none` when the selector matches
nothing or raises), the texts of all `p` elements, and the full body
text (`none` when the access raises). -/
structure FetchBeh where
  navErr : Bool
  waitOk : Bool
  selTexts : List (Option Str)
  pTexts : List Str
  bodyText : Option Str

/-- The selector loop: the first selector whose element text is
non-empty and longer than 200 characters wins. -/
def firstSel : List (Option Str) → Option Str
  | [] => none
  | none :: rest => firstSel rest
  | some t :: rest => if t ≠ [] ∧ 200 < t.length then some t else firstSel rest

/-- combine_rss.py `fetch_article_content`: selector search, then
paragraph extraction (stripped `p` texts longer than 50 characters
joined by blank lines), then whole-body text when longer than 500
characters; `none` on timeout, navigation failure, or when nothing
qualifies. -/
def fetch_article_content (b : FetchBeh) : Option Str :=
  if b.navErr then none
  else if !b.waitOk then none
  else match firstSel b.selTexts with
    | some t => some t
    | none =>
      if (b.pTexts.map pyStrip).filter (fun t => 50 < t.length) ≠ [] then
        some (List.intercalate (str "\n\n")
          ((b.pTexts.map pyStrip).filter (fun t => 50 < t.length)))
      else match b.bodyText with
        | some bt => if 500 < bt.length then some bt else none
        | none => none

/-- combine_rss.py line 144: `description = full_content if
full_content else entry.get("description", "No content available")`.
The summary argument is `none` when the feed entry has no description
key at all, and `some s` (possibly empty) when it has one. -/
def combine_rss_description (full_content : Option Str) (summary : Option Str) : Str :=
  match full_content with
  | some c => if c = [] then summary.getD (str "No content available") else c
  | none => summary.getD (str "No content available")

/-
  lau.py per-entry resolution (the retry loop of `fetch_items`,
  lines 302-380) with injected fault behaviour.  `PyExc` stands for
  the `Exception`-derived errors the external calls can raise; both
  handler clauses of the loop catch them and continue.
-/

/-- An `Exception`-class Python error: a page-load timeout or any
other exception (renderer crash, malformed DOM, the extractor's own
RuntimeError, ...). -/
inductive PyExc where
  | timeoutExc : PyExc
  | otherExc : PyExc

/-- Behaviour of one attempt of the retry loop: whether navigation
raises, the two challenge-detector outcomes (before and after the long
wait), the parsed XPath fragment when `fetch_node_outer_html_with_xpaths`
returns one, and the parsed full page source (or the error raised when
accessing it). -/
structure AttemptBeh where
  navErr : Option PyExc
  captcha1 : Bool
  captcha2 : Bool
  outerHtml : Option NodeList
  pageSource : Except PyExc NodeList

/-- Run the extractor as the Python call site does: its RuntimeError
(see `styleStep`) is an ordinary exception carrying on the current
value of `article_text`, which is still bound to its previous value
because the assignment never completed. -/
def extractOr (doc : NodeList) (tCur : Str) : Except (PyExc × Str) Str :=
  match extract_article_text_from_html doc with
  | Except.ok t => Except.ok t
  | Except.error _ => Except.error (PyExc.otherExc, tCur)

/-- The body of one iteration of the retry loop, threading
`article_text` (so that a raised exception preserves the text assigned
so far).  Returns the new text and whether the loop `break`s. -/
def attemptBody (b : AttemptBeh) (t0 : Str) : Except (PyExc × Str) (Str × Bool) :=
  match b.navErr with
  | some e => Except.error (e, t0)
  | none =>
    if b.captcha1 && b.captcha2 then Except.ok (t0, false)
    else
      match (match b.outerHtml with
             | some h => extractOr h t0
             | none => Except.ok t0) with
      | Except.error e => Except.error e
      | Except.ok t1 =>
        match (if t1 = [] ∨ t1.length < 500 then
                 match b.pageSource with
                 | Except.error e => Except.error (e, t1)
                 | Except.ok ps => extractOr ps t1
               else Except.ok t1) with
        | Except.error e => Except.error e
        | Except.ok t2 =>
          if t2.length < 500 then Except.ok (t2, false) else Except.ok (t2, true)

/-- The two `except` clauses of the retry loop: `TimeoutException` and
the catch-all `Exception` handler both keep the current text and let
the loop continue with `retry_count` incremented. -/
def attemptResult (b : AttemptBeh) (t0 : Str) : Str × Bool :=
  match attemptBody b t0 with
  | Except.ok r => r
  | Except.error (_, t) => (t, false)

/-- `while retry_count < max_retries and not article_text`, with fuel
`max_retries - retry_count`; every non-breaking iteration increments
`retry_count`. -/
def resolveLoopAux (beh : Nat → AttemptBeh) : Nat → Nat → Str → Str
  | 0, _, t => t
  | fuel + 1, idx, t =>
    if t = [] then
      match attemptResult (beh idx) t with
      | (t2, true) => t2
      | (t2, false) => resolveLoopAux beh fuel (idx + 1) t2
    else t

/-- lau.py `max_retries`. -/
def max_retries : Nat := 2

/-- The resolved `article_text` for one entry under the given attempt
behaviours. -/
def resolve_article (beh : Nat → AttemptBeh) : Str :=
  resolveLoopAux beh max_retries 0 []

/-
  lau.py `fetch_items`: the per-feed entry loop, item construction,
  final sort and cap.
-/

/-- Per-entry behaviour: the attempt behaviours of its retry loop. -/
abbrev EntryBeh := Nat → AttemptBeh

/-- A raw feed entry as `feedparser` delivers it: every field is
optional (`none` models a missing key/attribute). -/
structure Entry where
  link : Option Str
  title : Option Str
  published : Option Str
  updated : Option Str
  media : Option Str

/-- An item of the output collection (the dict appended by
`fetch_items`). -/
structure RItem where
  title : Str
  link : Str
  original_link : Str
  description : Str
  pub_dt : PyDateTime
  image : Option Str

/-- lau.py `ARCHIVE_PREFIX`, prefixed to the original link by plain
string concatenation. -/
def archiveUrlBase : Str := str "https://archive.is/o/nuunc/"

/-- Build the item dict for one entry (lau.py lines 382-401). -/
def mkItem (b : EntryBeh) (parse : Str → Option PyDateTime) (now : Int)
    (e : Entry) (l : Str) : RItem :=
  { title := pyStrip (e.title.getD [])
  , link := archiveUrlBase ++ l
  , original_link := l
  , description := resolve_article b
  , pub_dt := parse_pubdate parse now e.published e.updated
  , image := e.media }

/-- Python truthiness of `entry.get("link")`: present and non-empty. -/
def entryLinked (e : Entry) : Bool :=
  match e.link with
  | some l => !l.isEmpty
  | none => false

/-- The entry loop of lau.py `fetch_items` (lines 289-403): break once
`count` reaches the per-feed limit, skip entries without a link,
otherwise resolve and append; `idx` numbers the entries so each gets
its own behaviour. -/
def processFeedGo (behs : Nat → EntryBeh) (parse : Str → Option PyDateTime)
    (now : Int) (limit : Nat) : Nat → Nat → List Entry → List RItem
  | _, _, [] => []
  | idx, count, e :: es =>
    if limit ≤ count then []
    else match e.link with
      | none => processFeedGo behs parse now limit (idx + 1) count es
      | some l =>
        if l = [] then processFeedGo behs parse now limit (idx + 1) count es
        else mkItem (behs idx) parse now e l ::
             processFeedGo behs parse now limit (idx + 1) (count + 1) es

/-- All items collected from one feed. -/
def fetch_items_feed (behs : Nat → EntryBeh) (parse : Str → Option PyDateTime)
    (now : Int) (limit : Nat) (entries : List Entry) : List RItem :=
  processFeedGo behs parse now limit 0 0 entries

/-- The sort key of lau.py line 419: `pub_dt`, an aware datetime, i.e.
the absolute instant (naive value minus the offset). -/
def itemKey (it : RItem) : Int := it.pub_dt.t - 60 * it.pub_dt.tz.getD 0

/-- lau.py `MAX_ITEMS`. -/
def MAX_ITEMS : Nat := 500

/-- Ordered insertion modelling one element of Python's stable
descending sort (`list.sort(key=..., reverse=True)` keeps equal keys
in original order, so an element inserted from the left goes in front
of equal keys). -/
def insertDesc {α : Type} (key : α → Int) (x : α) : List α → List α
  | [] => [x]
  | y :: ys => if key y ≤ key x then x :: y :: ys else y :: insertDesc key x ys

/-- Python's `list.sort(key=..., reverse=True)`: the unique stable
descending order. -/
def pySortDesc {α : Type} (key : α → Int) : List α → List α
  | [] => []
  | x :: xs => insertDesc key x (pySortDesc key xs)

/-- lau.py `fetch_items` tail (lines 418-420): collect the per-feed
item lists, sort by `pub_dt` descending, truncate to `MAX_ITEMS`. -/
def fetch_items (behs : Nat → Nat → EntryBeh) (parse : Str → Option PyDateTime)
    (now : Int) (feeds : List (List Entry)) (limit : Nat) : List RItem :=
  (pySortDesc itemKey
    ((feeds.enum.map (fun p => fetch_items_feed (behs p.1) parse now limit p.2)).flatten)).take
    MAX_ITEMS

/-
  Concrete inputs used by the counterexamples and witnesses below.
-/

/-- The four all-lowercase indicators of `check_for_captcha` — the
ones that can actually fire after the page text is lowercased. -/
def live_indicators : List Str :=
  [ str "recaptcha", str "captcha", str "verify you are human"
  , str "automated queries" ]

/-- A section with two body-styled sibling divs where the second div's
text strictly extends the first div's text. -/
def cexDoc3 : NodeList :=
  nlist [Node.elem (str "section") (str "") (nlist
    [ Node.elem (str "div") (str "line-height:28px")
        (nlist [Node.text (str "abcdefghijklmnopqrstu")])
    , Node.elem (str "div") (str "line-height:28px")
        (nlist [Node.text (str "abcdefghijklmnopqrstu and more")]) ])]

/-- A section where a body-styled div is followed by a sibling whose
text is a strict superset of the first fragment: the dedup loop should
replace the subset but instead mutates the set it iterates. -/
def cexDoc4 : NodeList :=
  nlist [Node.elem (str "section") (str "") (nlist
    [ Node.elem (str "div") (str "line-height:24px")
        (nlist [Node.text (str "economist article paragraph")])
    , Node.elem (str "div") (str "line-height:24px")
        (nlist [Node.text (str "economist article paragraph continued here")]) ])]

/-- Text living below a `display:none` ancestor. -/
def hidden7 : Str :=
  str "Hidden paragraph text that the renderer never displays to anyone"

/-- A body-styled div nested inside a `display:none` div: its own
style carries no hidden marker, but an ancestor's does. -/
def cexDoc7 : NodeList :=
  nlist [Node.elem (str "section") (str "") (nlist
    [ Node.elem (str "div") (str "display:none") (nlist
      [ Node.elem (str "div") (str "line-height:28px") (nlist [Node.text hidden7]) ]) ])]

/-- An ordinary visible paragraph (no hidden ancestors). -/
def witText7 : Str :=
  str "A perfectly ordinary visible paragraph with enough length to count"

/-- A document with a single visible body-styled div. -/
def witDoc7 : NodeList :=
  nlist [Node.elem (str "div") (str "line-height:24px") (nlist [Node.text witText7])]

/-- Another visible paragraph, for the length-threshold witness. -/
def witText10 : Str :=
  str "Another entirely visible sentence long enough for the fallback pass"

/-- A document with a single visible body-styled div. -/
def witDoc10 : NodeList :=
  nlist [Node.elem (str "div") (str "line-height:28px") (nlist [Node.text witText10])]

/-- A behaviour on which `fetch_article_content` fails at navigation,
so resolution degrades to the summary fallback. -/
def fetchFailBeh : FetchBeh :=
  { navErr := true, waitOk := true, selTexts := [], pTexts := [], bodyText := none }

/-- The oracle value of `parsedate_to_datetime` on the RFC-2822 string
"Wed, 01 Jan 2020 01:40:00 +0530": an aware datetime carrying the
feed's own +05:30 offset (330 minutes). -/
def parse530 : Str → Option PyDateTime := fun _ => some ⟨100, some 330⟩

/-- An oracle returning a naive parsed datetime. -/
def parseNaive : Str → Option PyDateTime := fun _ => some ⟨5, none⟩

/-
  Helper lemmas.
-/

theorem mem_of_prefixB {c : Char} : ∀ {n h : Str}, prefixB n h = true → c ∈ n → c ∈ h := by
  intro n
  induction n with
  | nil => intro h _ hc; simp at hc
  | cons a as ih =>
    intro h hp hc
    cases h with
    | nil => simp [prefixB] at hp
    | cons b bs =>
      rw [prefixB, Bool.and_eq_true] at hp
      obtain ⟨h1, h2⟩ := hp
      have hab : a = b := of_decide_eq_true h1
      rcases List.mem_cons.mp hc with rfl | hmem
      · exact hab ▸ List.mem_cons_self _ _
      · exact List.mem_cons_of_mem _ (ih h2 hmem)

theorem mem_of_infixB {c : Char} : ∀ {n h : Str}, infixB n h = true → c ∈ n → c ∈ h := by
  intro n h
  induction h with
  | nil => intro hi hc; exact mem_of_prefixB hi hc
  | cons b bs ih =>
    intro hi hc
    rw [infixB, Bool.or_eq_true] at hi
    rcases hi with hp | hrest
    · exact mem_of_prefixB hp hc
    · exact List.mem_cons_of_mem _ (ih hrest hc)

theorem pyLowerChar_ne_upper_t (c : Char) : pyLowerChar c ≠ 'T' := by
  unfold pyLowerChar
  split
  case isTrue hin =>
    obtain ⟨h1, h2⟩ := hin
    have h3 : 97 ≤ c.toNat + 32 := by omega
    have h4 : c.toNat + 32 ≤ 122 := by omega
    generalize hm : c.toNat + 32 = m at h3 h4 ⊢
    interval_cases m <;> decide
  case isFalse hout =>
    intro heq
    exact hout (heq ▸ (by decide : 65 ≤ ('T' : Char).toNat ∧ ('T' : Char).toNat ≤ 90))

theorem infixB_mixed_case_never (p : Str) :
    infixB (str "Try again later") (pyLower p) = false := by
  cases hb : infixB (str "Try again later") (pyLower p) with
  | false => rfl
  | true =>
    have hT : 'T' ∈ pyLower p :=
      mem_of_infixB hb (by decide : 'T' ∈ str "Try again later")
    obtain ⟨c, _, hc⟩ := List.mem_map.mp hT
    exact absurd hc (pyLowerChar_ne_upper_t c)

theorem is_content_div_no_display (d : Node) (sn : Str)
    (h : is_content_div d sn = true) :
    infixB (str "display:none") sn = false := by
  cases hb : infixB (str "display:none") sn with
  | false => rfl
  | true => rw [is_content_div, hb] at h; simp at h

theorem styleStep_paragraphs (st : DState) (text : Str) (st2 : DState)
    (h : styleStep st text = Except.ok st2) :
    st2.paragraphs = st.paragraphs ∨
      (20 < text.length ∧ st2.paragraphs = st.paragraphs ++ [text]) := by
  unfold styleStep at h
  split at h
  case isTrue hc =>
    cases hscan : scanSeen text st.seen with
    | some b =>
      cases b with
      | true => rw [hscan] at h; cases h
      | false =>
        rw [hscan] at h
        left
        rw [← Except.ok.inj h]
    | none =>
      rw [hscan] at h
      right
      refine ⟨hc.1, ?_⟩
      rw [← Except.ok.inj h]
  case isFalse =>
    left
    rw [← Except.ok.inj h]

theorem styleFold_mem : ∀ (divs : List Node) (st st2 : DState),
    styleFold divs st = Except.ok st2 → ∀ p ∈ st2.paragraphs,
    p ∈ st.paragraphs ∨ ∃ d ∈ divs,
      is_content_div d (normalize_style (styleOf d)) = true ∧
      p = divDirectText d ∧ 20 < p.length := by
  intro divs
  induction divs with
  | nil =>
    intro st st2 h p hp
    left
    rw [styleFold] at h
    rw [← Except.ok.inj h] at hp
    exact hp
  | cons d ds ih =>
    intro st st2 h p hp
    rw [styleFold] at h
    split at h
    case isTrue hcd =>
      cases hstep : styleStep st (divDirectText d) with
      | error e => rw [hstep] at h; cases h
      | ok stm =>
        rw [hstep] at h
        rcases ih stm st2 h p hp with hin | ⟨d2, hd2, hh1, hh2, hh3⟩
        · rcases styleStep_paragraphs st _ stm hstep with heq | ⟨hlen, happ⟩
          · left; rw [heq] at hin; exact hin
          · rw [happ] at hin
            rcases List.mem_append.mp hin with hold | hnew
            · left; exact hold
            · right
              have hpt : p = divDirectText d := List.mem_singleton.mp hnew
              exact ⟨d, List.mem_cons_self _ _, hcd, hpt, by rw [hpt]; exact hlen⟩
        · right; exact ⟨d2, List.mem_cons_of_mem _ hd2, hh1, hh2, hh3⟩
    case isFalse =>
      rcases ih st st2 h p hp with hin | ⟨d2, hd2, hh1, hh2, hh3⟩
      · left; exact hin
      · right; exact ⟨d2, List.mem_cons_of_mem _ hd2, hh1, hh2, hh3⟩

theorem permStep_paragraphs (st : DState) (d : Node) :
    (permStep st d).paragraphs = st.paragraphs ∨
      (infixB (str "display:none") (normalize_style (styleOf d)) = false ∧
       50 < (getText d).length ∧
       (permStep st d).paragraphs = st.paragraphs ++ [getText d]) := by
  unfold permStep
  split
  case isTrue => left; rfl
  case isFalse hd =>
    split
    case isTrue => left; rfl
    case isFalse =>
      split
      case isTrue hc =>
        split
        case isTrue => left; rfl
        case isFalse =>
          right
          exact ⟨Bool.not_eq_true _ ▸ eq_false_of_ne_true hd, hc.1, rfl⟩
      case isFalse => left; rfl

theorem permFold_mem : ∀ (divs : List Node) (st : DState),
    ∀ p ∈ (List.foldl permStep st divs).paragraphs,
    p ∈ st.paragraphs ∨ ∃ d ∈ divs,
      infixB (str "display:none") (normalize_style (styleOf d)) = false ∧
      p = getText d ∧ 50 < p.length := by
  intro divs
  induction divs with
  | nil => intro st p hp; left; simpa using hp
  | cons d ds ih =>
    intro st p hp
    rw [List.foldl_cons] at hp
    rcases ih (permStep st d) p hp with hin | ⟨d2, hd2, hh1, hh2, hh3⟩
    · rcases permStep_paragraphs st d with heq | ⟨h1, h2, h3⟩
      · left; rw [heq] at hin; exact hin
      · rw [h3] at hin
        rcases List.mem_append.mp hin with hold | hnew
        · left; exact hold
        · right
          have hpt : p = getText d := List.mem_singleton.mp hnew
          exact ⟨d, List.mem_cons_self _ _, h1, hpt, by rw [hpt]; exact h2⟩
    · right; exact ⟨d2, List.mem_cons_of_mem _ hd2, hh1, hh2, hh3⟩

theorem mem_insertDesc {α : Type} (key : α → Int) (x a : α) :
    ∀ l, a ∈ insertDesc key x l ↔ a = x ∨ a ∈ l := by
  intro l
  induction l with
  | nil => simp [insertDesc]
  | cons y ys ih =>
    unfold insertDesc
    split
    · simp [List.mem_cons]
    · simp only [List.mem_cons, ih]
      tauto

theorem pairwise_insertDesc {α : Type} (key : α → Int) (x : α) :
    ∀ l, List.Pairwise (fun a b => key b ≤ key a) l →
      List.Pairwise (fun a b => key b ≤ key a) (insertDesc key x l) := by
  intro l
  induction l with
  | nil => intro _; simp [insertDesc]
  | cons y ys ih =>
    intro hp
    rw [List.pairwise_cons] at hp
    obtain ⟨hy, hys⟩ := hp
    unfold insertDesc
    split
    case isTrue hle =>
      refine List.Pairwise.cons ?_ (List.Pairwise.cons hy hys)
      intro b hb
      rcases List.mem_cons.mp hb with rfl | hbys
      · exact hle
      · exact le_trans (hy b hbys) hle
    case isFalse hgt =>
      refine List.Pairwise.cons ?_ (ih hys)
      intro b hb
      rcases (mem_insertDesc key x b ys).mp hb with rfl | hbys
      · exact le_of_not_le hgt
      · exact hy b hbys

theorem sorted_pySortDesc {α : Type} (key : α → Int) :
    ∀ l, List.Pairwise (fun a b => key b ≤ key a) (pySortDesc key l) := by
  intro l
  induction l with
  | nil => simp [pySortDesc]
  | cons x xs ih => exact pairwise_insertDesc key x _ ih

theorem mem_pySortDesc {α : Type} (key : α → Int) (a : α) :
    ∀ l, a ∈ pySortDesc key l ↔ a ∈ l := by
  intro l
  induction l with
  | nil => simp [pySortDesc]
  | cons x xs ih =>
    unfold pySortDesc
    rw [mem_insertDesc, ih, List.mem_cons]

theorem stable_insertDesc {β : Type} (key : β → Int) (x : Nat × β) :
    ∀ (l : List (Nat × β)), (∀ y ∈ l, x.1 < y.1) →
      List.Pairwise (fun a b => key b.2 < key a.2 ∨ (key a.2 = key b.2 ∧ a.1 < b.1)) l →
      List.Pairwise (fun a b => key b.2 < key a.2 ∨ (key a.2 = key b.2 ∧ a.1 < b.1))
        (insertDesc (fun p => key p.2) x l) := by
  intro l
  induction l with
  | nil => intro _ _; simp [insertDesc]
  | cons y ys ih =>
    intro hidx hp
    rw [List.pairwise_cons] at hp
    obtain ⟨hy, hys⟩ := hp
    unfold insertDesc
    split
    case isTrue hle =>
      refine List.Pairwise.cons ?_ (List.Pairwise.cons hy hys)
      intro b hb
      rcases List.mem_cons.mp hb with rfl | hbys
      · rcases lt_or_eq_of_le hle with hlt | heq
        · exact Or.inl hlt
        · exact Or.inr ⟨heq.symm, hidx b (List.mem_cons_self _ _)⟩
      · have hby : key b.2 ≤ key y.2 := by
          rcases hy b hbys with hlt | ⟨heq, _⟩
          · exact le_of_lt hlt
          · exact le_of_eq heq.symm
        rcases lt_or_eq_of_le (le_trans hby hle) with hlt | heq
        · exact Or.inl hlt
        · exact Or.inr ⟨heq.symm, hidx b (List.mem_cons_of_mem _ hbys)⟩
    case isFalse hgt =>
      refine List.Pairwise.cons ?_ (ih (fun z hz => hidx z (List.mem_cons_of_mem _ hz)) hys)
      intro b hb
      rcases (mem_insertDesc (fun p => key p.2) x b ys).mp hb with rfl | hbys
      · exact Or.inl (lt_of_not_le hgt)
      · exact hy b hbys

theorem stable_pySortDesc {β : Type} (key : β → Int) :
    ∀ (l : List (Nat × β)), List.Pairwise (fun a b => a.1 < b.1) l →
      List.Pairwise (fun a b => key b.2 < key a.2 ∨ (key a.2 = key b.2 ∧ a.1 < b.1))
        (pySortDesc (fun p => key p.2) l) := by
  intro l
  induction l with
  | nil => intro _; simp [pySortDesc]
  | cons x xs ih =>
    intro hp
    rw [List.pairwise_cons] at hp
    obtain ⟨hx, hxs⟩ := hp
    unfold pySortDesc
    refine stable_insertDesc key x _ ?_ (ih hxs)
    intro y hy
    exact hx y ((mem_pySortDesc (fun p => key p.2) y xs).mp hy)

theorem fst_le_of_mem_enumFrom {β : Type} :
    ∀ (l : List β) (n : Nat) (p : Nat × β), p ∈ List.enumFrom n l → n ≤ p.1 := by
  intro l
  induction l with
  | nil => intro n p hp; simp [List.enumFrom] at hp
  | cons x xs ih =>
    intro n p hp
    rw [List.enumFrom] at hp
    rcases List.mem_cons.mp hp with rfl | hmem
    · exact le_refl _
    · exact le_trans (Nat.le_succ n) (ih (n + 1) p hmem)

theorem pairwise_fst_lt_enumFrom {β : Type} :
    ∀ (l : List β) (n : Nat),
      List.Pairwise (fun a b => a.1 < b.1) (List.enumFrom n l) := by
  intro l
  induction l with
  | nil => intro n; simp [List.enumFrom]
  | cons x xs ih =>
    intro n
    rw [List.enumFrom]
    refine List.Pairwise.cons ?_ (ih (n + 1))
    intro p hp
    exact lt_of_lt_of_le (Nat.lt_succ_self n) (fst_le_of_mem_enumFrom xs (n + 1) p hp)

theorem map_snd_insertDesc {β : Type} (key : β → Int) (x : Nat × β) :
    ∀ (l : List (Nat × β)),
      (insertDesc (fun p => key p.2) x l).map Prod.snd =
        insertDesc key x.2 (l.map Prod.snd) := by
  intro l
  induction l with
  | nil => simp [insertDesc]
  | cons y ys ih =>
    by_cases h : key y.2 ≤ key x.2
    · simp [insertDesc, h]
    · simp [insertDesc, h, ih]

theorem map_snd_pySortDesc {β : Type} (key : β → Int) :
    ∀ (l : List β) (n : Nat),
      (pySortDesc (fun p => key p.2) (List.enumFrom n l)).map Prod.snd =
        pySortDesc key l := by
  intro l
  induction l with
  | nil => intro n; simp [pySortDesc, List.enumFrom]
  | cons x xs ih =>
    intro n
    rw [List.enumFrom, pySortDesc, pySortDesc, map_snd_insertDesc, ih]

theorem processFeedGo_length (behs : Nat → EntryBeh) (parse : Str → Option PyDateTime)
    (now : Int) (limit : Nat) :
    ∀ (es : List Entry) (idx count : Nat),
      (processFeedGo behs parse now limit idx count es).length
        = min (limit - count) (es.countP entryLinked) := by
  intro es
  induction es with
  | nil => intro idx count; simp [processFeedGo]
  | cons e es ih =>
    intro idx count
    unfold processFeedGo
    by_cases hlc : limit ≤ count
    · have h0 : limit - count = 0 := Nat.sub_eq_zero_of_le hlc
      simp [hlc, h0]
    · cases hl : e.link with
      | none =>
        have hlink : entryLinked e = false := by simp [entryLinked, hl]
        have hcount : (e :: es).countP entryLinked = es.countP entryLinked :=
          List.countP_cons_of_neg entryLinked es (by simp [hlink])
        rw [if_neg hlc, hcount]
        exact ih (idx + 1) count
      | some l =>
        by_cases he : l = []
        · have hlink : entryLinked e = false := by
            simp [entryLinked, hl, he]
          have hcount : (e :: es).countP entryLinked = es.countP entryLinked :=
            List.countP_cons_of_neg entryLinked es (by simp [hlink])
          subst he
          rw [if_neg hlc, hcount]
          exact ih (idx + 1) count
        · have hlink : entryLinked e = true := by
            cases l with
            | nil => exact absurd rfl he
            | cons a as => simp [entryLinked, hl]
          have hcount : (e :: es).countP entryLinked = es.countP entryLinked + 1 :=
            List.countP_cons_of_pos entryLinked es (by simp [hlink])
          rw [if_neg hlc, hcount]
          show (if l = [] then processFeedGo behs parse now limit (idx + 1) count es
                else mkItem (behs idx) parse now e l ::
                  processFeedGo behs parse now limit (idx + 1) (count + 1) es).length = _
          rw [if_neg he, List.length_cons, ih]
          have harith : limit - count = (limit - (count + 1)) + 1 := by omega
          rw [harith, Nat.succ_min_succ]

theorem firstSel_length : ∀ (l : List (Option Str)) (t : Str),
    firstSel l = some t → 200 < t.length := by
  intro l
  induction l with
  | nil => intro t h; simp [firstSel] at h
  | cons o rest ih =>
    intro t h
    cases o with
    | none => exact ih t h
    | some s =>
      rw [firstSel] at h
      split at h
      case isTrue hc => cases h; exact hc.2
      case isFalse => exact ih t h

theorem intercalate_cons_ne_nil (sep c : Str) (rest : List Str) (hc : c ≠ []) :
    List.intercalate sep (c :: rest) ≠ [] := by
  cases rest with
  | nil => simpa [List.intercalate] using hc
  | cons b bs =>
    rw [List.intercalate]
    intro h
    rw [List.intersperse_cons_cons, List.flatten_cons, List.append_eq_nil] at h
    exact hc h.1

theorem fetch_article_content_ne_empty (b : FetchBeh) :
    fetch_article_content b ≠ some [] := by
  unfold fetch_article_content
  split
  · simp
  · split
    · simp
    · split
      next t hsel =>
        intro h
        have ht : t = [] := Option.some.inj h
        have := firstSel_length b.selTexts t hsel
        rw [ht] at this
        simp at this
      next hsel =>
        split
        next hcps =>
          obtain ⟨c, cs, hc⟩ := List.exists_cons_of_ne_nil hcps
          have hmem : c ∈ (b.pTexts.map pyStrip).filter (fun t => decide (50 < t.length)) := by
            rw [hc]; exact List.mem_cons_self _ _
          have hlen : 50 < c.length := by
            have := List.of_mem_filter hmem
            exact of_decide_eq_true this
          have hcne : c ≠ [] := by
            intro hnil; rw [hnil] at hlen; simp at hlen
          rw [hc]
          intro h
          exact intercalate_cons_ne_nil _ c cs hcne (Option.some.inj h)
        next =>
          split
          next bt hbt =>
            split
            next h500 =>
              intro h
              have := Option.some.inj h
              rw [this] at h500
              simp at h500
            next => simp
          next => simp

theorem extractParagraphs_ok_cases (doc : NodeList) (ps : List Str)
    (h : extractParagraphs doc = Except.ok ps) :
    ∃ st, styleFold (allDivsOf doc) ⟨[], []⟩ = Except.ok st ∧
      ((st.paragraphs.length < 3 ∧
          ps = (List.foldl permStep ⟨[], []⟩ (allDivsOf doc)).paragraphs) ∨
       (¬ st.paragraphs.length < 3 ∧ ps = st.paragraphs)) := by
  unfold extractParagraphs at h
  split at h
  next e heq => cases h
  next st heq =>
    refine ⟨st, heq, ?_⟩
    split at h
    next h3 => exact Or.inl ⟨h3, (Except.ok.inj h).symm⟩
    next h3 => exact Or.inr ⟨h3, (Except.ok.inj h).symm⟩

/-
  Claim theorems.
-/

/-- C1: for every feed entry, the per-entry resolution step never
propagates an exception to the batch driver regardless of how the
renderer, challenge detector, page-source access or extractor behave:
every fault injected at those call sites is caught by the retry loop's
handlers and the entry degrades, so for every behaviour assignment the
batch produces exactly one item per linked entry (up to the per-feed
cap) — a failing entry never aborts the processing of the remaining
entries. -/
theorem per_entry_faults_never_abort_batch (behs : Nat → EntryBeh)
    (parse : Str → Option PyDateTime) (now : Int) (limit : Nat) (entries : List Entry) :
    (fetch_items_feed behs parse now limit entries).length
      = min limit (entries.countP entryLinked) := by
  unfold fetch_items_feed
  rw [processFeedGo_length behs parse now limit entries 0 0, Nat.sub_zero]

/-- C6: for every feed and every behaviour, at most `per_feed_limit`
entries are resolved: the loop breaks as soon as the count reaches the
limit, so the per-feed item list never exceeds it. -/
theorem per_feed_limit_respected (behs : Nat → EntryBeh)
    (parse : Str → Option PyDateTime) (now : Int) (limit : Nat) (entries : List Entry) :
    (fetch_items_feed behs parse now limit entries).length ≤ limit := by
  unfold fetch_items_feed
  rw [processFeedGo_length behs parse now limit entries 0 0, Nat.sub_zero]
  exact Nat.min_le_left _ _

/-- C5: the final output collection is sorted by `pub_dt` descending
and never exceeds `MAX_ITEMS`; and the sort used (the unique stable
descending sort, as Python's `list.sort(key=..., reverse=True)`)
breaks ties by original feed-provided position: on the index-annotated
list it is pairwise ordered by strictly-greater key or equal key with
strictly smaller original index, and erasing the annotation gives back
exactly the sort the pipeline performs. -/
theorem fetch_items_sorted_stable_capped (behs : Nat → Nat → EntryBeh)
    (parse : Str → Option PyDateTime) (now : Int) (feeds : List (List Entry)) (limit : Nat) :
    (fetch_items behs parse now feeds limit).length ≤ MAX_ITEMS ∧
    List.Pairwise (fun a b => itemKey b ≤ itemKey a) (fetch_items behs parse now feeds limit) ∧
    ∀ items : List RItem,
      (pySortDesc (fun p => itemKey p.2) items.enum).map Prod.snd = pySortDesc itemKey items ∧
      List.Pairwise
        (fun a b => itemKey b.2 < itemKey a.2 ∨ (itemKey a.2 = itemKey b.2 ∧ a.1 < b.1))
        (pySortDesc (fun p => itemKey p.2) items.enum) := by
  refine ⟨?_, ?_, ?_⟩
  · unfold fetch_items
    rw [List.length_take]
    exact Nat.min_le_left _ _
  · unfold fetch_items
    exact List.Pairwise.sublist (List.take_sublist _ _) (sorted_pySortDesc itemKey _)
  · intro items
    exact ⟨map_snd_pySortDesc itemKey items 0,
           stable_pySortDesc itemKey items.enum (pairwise_fst_lt_enumFrom items 0)⟩

/-- C3 (code bug): the extractor is not exception-free.  On a section
holding two body-styled divs whose second text strictly extends the
first, the dedup loop reaches the strict-superset branch, discards
from `seen_texts` while iterating it, and CPython raises
RuntimeError ("Set changed size during iteration"), which propagates
out of `extract_article_text_from_html`. -/
theorem extract_raises_on_growing_duplicate :
    extract_article_text_from_html cexDoc3 = Except.error () := rfl

/-- C4 (code bug): when fragment A is accepted first and fragment B, a
strict superset of A, arrives later, the intended replacement of A by
B never happens: the superset branch crashes with RuntimeError instead
of producing an output containing only B. -/
theorem extract_crashes_instead_of_replacing :
    extract_article_text_from_html cexDoc4 = Except.error () := rfl

/-- C7 counterexample: an element whose own style lacks `display:none`
but which sits below a `display:none` ancestor does contribute its
text — the code never looks at ancestors, so the hidden text is the
whole extractor output here. -/
theorem hidden_ancestor_text_extracted :
    extract_article_text_from_html cexDoc7 = Except.ok hidden7 ∧ hidden7 ≠ [] :=
  ⟨rfl, by decide⟩

/-- C7 (amended): only the element's own inline style is consulted: in
both passes, every fragment of the extractor's output originates from
a div whose own normalized style does not contain `display:none`
(ancestors are never checked, so text below a hidden ancestor can
still appear, as the counterexample shows). -/
theorem extract_fragments_from_unhidden_divs (doc : NodeList) (ps : List Str)
    (h : extractParagraphs doc = Except.ok ps) :
    ∀ p ∈ ps, ∃ d ∈ allDivsOf doc,
      infixB (str "display:none") (normalize_style (styleOf d)) = false ∧
      (p = divDirectText d ∨ p = getText d) := by
  obtain ⟨st, hsf, hcase⟩ := extractParagraphs_ok_cases doc ps h
  intro p hp
  rcases hcase with ⟨_, hps⟩ | ⟨_, hps⟩
  · rw [hps] at hp
    rcases permFold_mem (allDivsOf doc) ⟨[], []⟩ p hp with hin | ⟨d, hd, h1, h2, _⟩
    · simp at hin
    · exact ⟨d, hd, h1, Or.inr h2⟩
  · rw [hps] at hp
    rcases styleFold_mem (allDivsOf doc) ⟨[], []⟩ st hsf p hp with hin | ⟨d, hd, hcd, heq, _⟩
    · simp at hin
    · exact ⟨d, hd, is_content_div_no_display d _ hcd, Or.inl heq⟩

/-- C7 witness: the amended theorem applied to a concrete one-div
document. -/
theorem extract_fragments_from_unhidden_divs_witness :
    extractParagraphs witDoc7 = Except.ok [witText7] ∧
    ∃ d ∈ allDivsOf witDoc7,
      infixB (str "display:none") (normalize_style (styleOf d)) = false ∧
      (witText7 = divDirectText d ∨ witText7 = getText d) :=
  ⟨rfl, extract_fragments_from_unhidden_divs witDoc7 [witText7] rfl witText7
    (List.mem_singleton.mpr rfl)⟩

/-- C10: every fragment the extractor outputs is longer than 20
characters, and when the output comes from the permissive fallback
pass (fewer than 3 style-signalled fragments) every fragment is longer
than 50 characters: short fragments are dropped even when they match
the body-text style signature. -/
theorem extract_min_length_thresholds (doc : NodeList) (ps : List Str)
    (h : extractParagraphs doc = Except.ok ps) :
    (∀ p ∈ ps, 20 < p.length) ∧
    (∀ st, styleFold (allDivsOf doc) ⟨[], []⟩ = Except.ok st →
       st.paragraphs.length < 3 → ∀ p ∈ ps, 50 < p.length) := by
  obtain ⟨st, hsf, hcase⟩ := extractParagraphs_ok_cases doc ps h
  rcases hcase with ⟨_, hps⟩ | ⟨h3, hps⟩
  · constructor
    · intro p hp
      rw [hps] at hp
      rcases permFold_mem (allDivsOf doc) ⟨[], []⟩ p hp with hin | ⟨_, _, _, _, hlen⟩
      · simp at hin
      · omega
    · intro st2 _ _ p hp
      rw [hps] at hp
      rcases permFold_mem (allDivsOf doc) ⟨[], []⟩ p hp with hin | ⟨_, _, _, _, hlen⟩
      · simp at hin
      · exact hlen
  · constructor
    · intro p hp
      rw [hps] at hp
      rcases styleFold_mem (allDivsOf doc) ⟨[], []⟩ st hsf p hp with hin | ⟨_, _, _, _, hlen⟩
      · simp at hin
      · exact hlen
    · intro st2 hsf2 h32 p hp
      rw [hsf] at hsf2
      rw [← Except.ok.inj hsf2] at h32
      exact absurd h32 h3

/-- C10 witness: the theorem applied to a concrete one-div document
whose single fragment comes from the permissive pass. -/
theorem extract_min_length_thresholds_witness :
    extractParagraphs witDoc10 = Except.ok [witText10] ∧
    20 < witText10.length ∧ 50 < witText10.length :=
  ⟨rfl,
   (extract_min_length_thresholds witDoc10 [witText10] rfl).1 witText10
     (List.mem_singleton.mpr rfl),
   (extract_min_length_thresholds witDoc10 [witText10] rfl).2 ⟨[witText10], [witText10]⟩ rfl
     (by decide) witText10 (List.mem_singleton.mpr rfl)⟩

/-- C8 counterexample: a page whose text is exactly the indicator
phrase "Try again later" satisfies the spec-worded detector (the page
contains a phrase of the indicator set) but `check_for_captcha`
returns false, because matching happens against the lowercased page
text while the needle keeps its capital letter. -/
theorem challenge_phrase_not_detected :
    detect_spec (str "Try again later") = true ∧
    check_for_captcha (str "Try again later") = false :=
  ⟨rfl, rfl⟩

/-- C8 (amended): the detector returns true iff the lowercased page
text contains one of the indicators; since no character lowercases to
a capital letter, the mixed-case indicator "Try again later" can never
match, and detection is exactly a match of one of the four all-lowercase
indicators against the lowercased page text. -/
theorem check_for_captcha_lowercase_semantics (p : Str) :
    infixB (str "Try again later") (pyLower p) = false ∧
    check_for_captcha p = live_indicators.any (fun i => infixB i (pyLower p)) := by
  refine ⟨infixB_mixed_case_never p, ?_⟩
  rw [check_for_captcha, captcha_indicators, live_indicators]
  simp only [List.any_cons, List.any_nil, infixB_mixed_case_never p, Bool.or_false]

/-- C9 counterexample: a feed date carrying a +05:30 offset (as
`parsedate_to_datetime` returns for "Wed, 01 Jan 2020 01:40:00 +0530")
is kept with its own offset — `publishedAt` is aware but not UTC,
because `tzinfo=timezone.utc` is only attached when the parsed
datetime is naive. -/
theorem parse_pubdate_preserves_feed_offset :
    (parse_pubdate parse530 0 (some (str "Wed, 01 Jan 2020 01:40:00 +0530")) none).tz
      = some 330 ∧ (330 : Int) ≠ 0 :=
  ⟨rfl, by decide⟩

/-- C9 (amended): `publishedAt` is always present and timezone-aware:
when the feed date string (published, else updated) is non-empty and
parses, the parsed value is returned with UTC attached only if it was
naive (a non-UTC feed offset is preserved as-is); when the date is
absent, empty or unparsable, it defaults to the UTC ingestion time. -/
theorem parse_pubdate_always_aware (parse : Str → Option PyDateTime) (now : Int)
    (published updated : Option Str) :
    (parse_pubdate parse now published updated).tz.isSome = true ∧
    (∀ dt, pubString published updated ≠ [] →
       parse (pubString published updated) = some dt →
       parse_pubdate parse now published updated = ⟨dt.t, some (dt.tz.getD 0)⟩) ∧
    ((pubString published updated = [] ∨ parse (pubString published updated) = none) →
       parse_pubdate parse now published updated = ⟨now, some 0⟩) := by
  by_cases hp : pubString published updated = []
  · refine ⟨?_, ?_, ?_⟩
    · rw [parse_pubdate, if_pos hp]
      rfl
    · intro dt hne _
      exact absurd hp hne
    · intro _
      rw [parse_pubdate, if_pos hp]
  · cases hparse : parse (pubString published updated) with
    | some dt =>
      refine ⟨?_, ?_, ?_⟩
      · rw [parse_pubdate, if_neg hp, hparse]
        rfl
      · intro dt2 _ heq
        rw [parse_pubdate, if_neg hp, hparse]
        rw [← Option.some.inj heq]
      · intro hor
        rcases hor with h1 | h2
        · exact absurd h1 hp
        · cases h2
    | none =>
      refine ⟨?_, ?_, ?_⟩
      · rw [parse_pubdate, if_neg hp, hparse]
        rfl
      · intro dt _ heq
        cases heq
      · intro _
        rw [parse_pubdate, if_neg hp, hparse]

/-- C9 witness: the amended theorem applied to a parsable naive date. -/
theorem parse_pubdate_always_aware_witness :
    (parse_pubdate parseNaive 9 (some (str "d")) none).tz.isSome = true ∧
    parse_pubdate parseNaive 9 (some (str "d")) none = ⟨5, some 0⟩ :=
  ⟨(parse_pubdate_always_aware parseNaive 9 (some (str "d")) none).1,
   (parse_pubdate_always_aware parseNaive 9 (some (str "d")) none).2.1 ⟨5, none⟩
     (by decide) rfl⟩

/-- C2 counterexample: when content fetching fails and the entry's
summary field is present but empty, the resolved body is the empty
string — the "No content available" marker only covers a missing
summary key, so the body is not always non-empty. -/
theorem resolution_body_empty_cex :
    combine_rss_description (fetch_article_content fetchFailBeh) (some []) = [] := rfl

/-- C2 (amended): the resolved body is the extracted content when
extraction succeeds (such content is never empty), else the entry's
summary field whenever the key is present — even when its value is
empty — else the "No content available" marker; hence the body is
empty exactly when extraction fails and the summary key is present
with an empty value. -/
theorem resolution_body_empty_iff (b : FetchBeh) (summary : Option Str) :
    combine_rss_description (fetch_article_content b) summary = [] ↔
      (fetch_article_content b = none ∧ summary = some []) := by
  cases hf : fetch_article_content b with
  | some c =>
    have hc : c ≠ [] := by
      intro h
      exact fetch_article_content_ne_empty b (by rw [hf, h])
    simp [combine_rss_description, hc]
  | none =>
    cases summary with
    | some s => simp [combine_rss_description]
    | none => decide

/-- C2 witness: the amended equivalence applied at a concrete failed
fetch with an absent summary key — the body is then the marker, which
is not empty. -/
theorem resolution_body_empty_iff_witness :
    combine_rss_description (fetch_article_content fetchFailBeh) none ≠ [] := by
  intro h
  exact Option.noConfusion ((resolution_body_empty_iff fetchFailBeh none).mp h).2
